import Mathlib

/-!
# Verification of the quiz-app session engine (`src/data/inMemory.ts`)

This file gives a shallow embedding of the in-memory data source of the
quiz application (`src/data/inMemory.ts` together with the entity types of
`src/data/types.ts`) and proves or refutes the specified properties of the
session engine: grading, scoring, the room lifecycle, the score invariant
and lookup by join code.

Modelling conventions:
* JavaScript numbers that carry quantities of time are modelled as `ℚ`;
  point values are modelled as `ℤ` (the spec fixes points to be integers and
  every writer of `points` in the repository uses integer literals).
* `Record<string, T>` objects are modelled as association lists
  `List (String × T)`; JavaScript object keys are unique, which the
  operations below preserve (new keys are appended, existing keys updated
  in place, matching JavaScript enumeration order).
* `throw new Error(msg)` is modelled with `Except String`.
* `Math.round` rounds half-way cases toward positive infinity, i.e.
  `Math.round x = ⌊x + 1/2⌋`.
* `String.prototype.trim` / `toLowerCase` are modelled on character lists
  (the application only produces ASCII content, where the two semantics
  agree).
* the non-null assertions `db.quizzes[room.quizId]!` in the source are
  modelled as explicit lookups; the crash case surfaces as an error value
  that reachable states never produce.
* `generateId` / `generateRoomCode` are random; they are modelled as oracle
  inputs of the operations, with the freshness the source relies on recorded
  as a side condition of the reachability relation.
-/

/-- A JavaScript runtime value as submitted by a client (`value: unknown`). -/
inductive JSValue where
  | null : JSValue
  | bool (b : Bool) : JSValue
  | num (q : ℚ) : JSValue
  | str (s : String) : JSValue
  | obj (fields : List (String × JSValue)) : JSValue
deriving Repr

/-- JavaScript property access `record[key]` on an object modelled as an
association list: the value at the first (unique) matching key. -/
def recGet {β : Type} (l : List (String × β)) (k : String) : Option β :=
  match l with
  | [] => none
  | e :: rest => if e.1 = k then some e.2 else recGet rest k

/-- Property access `o[k]` on a submitted object. -/
def jsGet (fields : List (String × JSValue)) (k : String) : Option JSValue :=
  recGet fields k

/-- A drag/drop item (`DragItem` in `types.ts`). -/
structure DragItem where
  id : String
  label : String
deriving DecidableEq, Repr

/-- The variant-specific part of a question (`Question` tagged union in
`types.ts`: `mcq`, `drag`, `fill`). -/
inductive QuestionBody where
  | mcq (options : List String) (correctIndex : ℚ) : QuestionBody
  | drag (items targets : List DragItem) (correctMapping : List (String × String)) : QuestionBody
  | fill (expectedAnswer : String) : QuestionBody
deriving DecidableEq, Repr

/-- A question (`BaseQuestion` of `types.ts` plus its variant). -/
structure Question where
  id : String
  prompt : String
  points : Option ℤ
  timeLimitSec : Option ℚ
  body : QuestionBody
deriving DecidableEq, Repr

/-- `value.trim()`: drop leading and trailing whitespace. -/
def jsTrim (s : String) : String :=
  ⟨((s.data.dropWhile Char.isWhitespace).reverse.dropWhile Char.isWhitespace).reverse⟩

/-- `value.toLowerCase()` on the ASCII range. -/
def jsToLower (s : String) : String :=
  ⟨s.data.map Char.toLower⟩

/-- `normalizeString` of `inMemory.ts`: `value.trim().toLowerCase()`. -/
def normalizeString (value : String) : String :=
  jsToLower (jsTrim value)

/-- `isAnswerCorrect(question, value)` of `inMemory.ts`.
* mcq: `value === mcq.correctIndex` (strict equality against a number);
* fill: non-strings are incorrect, strings are compared normalized;
* drag: non-objects are incorrect; for an object, every key of the
  canonical `correctMapping` must be mapped to the string of its canonical
  target (`mapping[k] === expected[k]`); keys of the submitted object
  outside the canonical mapping are not inspected. -/
def isAnswerCorrect (question : Question) (value : JSValue) : Bool :=
  match question.body with
  | .mcq _ correctIndex =>
      match value with
      | .num q => q == correctIndex
      | _ => false
  | .fill expectedAnswer =>
      match value with
      | .str s => normalizeString s == normalizeString expectedAnswer
      | _ => false
  | .drag _ _ expected =>
      match value with
      | .obj mapping =>
          expected.all fun kv =>
            match jsGet mapping kv.1 with
            | some (.str s) => s == kv.2
            | _ => false
      | _ => false

/-- JavaScript `Math.round`: round half toward positive infinity. -/
def jsRound (x : ℚ) : ℤ :=
  ⌊x + 1/2⌋

/-- `calculatePoints(question, isCorrect, timeTakenSec?)` of `inMemory.ts`.
The guard `!question.timeLimitSec || timeTakenSec == null` is truthiness:
an absent or zero time limit, or an absent time, short-circuits to `base`. -/
def calculatePoints (question : Question) (isCorrect : Bool)
    (timeTakenSec : Option ℚ) : ℤ :=
  if !isCorrect then 0
  else
    let base : ℤ := question.points.getD 10
    match question.timeLimitSec, timeTakenSec with
    | none, _ => base
    | some _, none => base
    | some tl, some t =>
        if tl = 0 then base
        else jsRound ((base : ℚ) * max (1/2) (1 - max 0 t / tl))

/-- A participant of a room (`Participant` in `types.ts`). -/
structure Participant where
  id : String
  name : String
  score : ℤ
  answeredQuestionIds : List String
deriving DecidableEq, Repr

/-- `RoomStatus` of `types.ts`. -/
inductive RoomStatus where
  | lobby : RoomStatus
  | running : RoomStatus
  | finished : RoomStatus
deriving DecidableEq, Repr

/-- `SubmittedAnswer` of `types.ts`. -/
structure SubmittedAnswer where
  questionId : String
  participantId : String
  value : JSValue
  isCorrect : Bool
  timeTakenSec : Option ℚ
  submittedAt : ℤ
  pointsAwarded : ℤ
deriving Repr

/-- `Room` of `types.ts`; `answers` maps a question id to the list of
answers submitted for it, in submission order. -/
structure Room where
  id : String
  code : String
  quizId : String
  status : RoomStatus
  currentQuestionIndex : ℤ
  participants : List Participant
  answers : List (String × List SubmittedAnswer)
  createdAt : ℤ
deriving Repr

/-- `Quiz` of `types.ts`. -/
structure Quiz where
  id : String
  title : String
  questions : List Question
  createdAt : ℤ
deriving DecidableEq, Repr

/-- `RoomSnapshot` of `types.ts`. -/
structure RoomSnapshot where
  room : Room
  quiz : Quiz
deriving Repr

/-- The module-level `db` object of `inMemory.ts` (the listener table is
modelled separately, see `onRoomUpdateImmediate`). -/
structure Db where
  quizzes : List (String × Quiz)
  rooms : List (String × Room)
deriving Repr

/-- Assignment `db.rooms[rid] = r` for a key already present: update in
place, keeping enumeration order. -/
def setRoom (rooms : List (String × Room)) (rid : String) (r : Room) :
    List (String × Room) :=
  rooms.map fun e => if e.1 = rid then (rid, r) else e

/-- `createQuiz(payload)` (with the generated id and `Date.now()` as oracle
inputs). -/
def createQuiz (db : Db) (id title : String) (questions : List Question)
    (now : ℤ) : Db :=
  { db with quizzes := db.quizzes ++ [(id, ⟨id, title, questions, now⟩)] }

/-- `createRoom(quizId)`: fails if the quiz is absent; otherwise inserts a
fresh room in `lobby` with index -1 and empty collections. -/
def createRoom (db : Db) (quizId id code : String) (now : ℤ) :
    Except String Db :=
  match recGet db.quizzes quizId with
  | none => .error "Quiz not found"
  | some _ =>
      .ok { db with rooms :=
        db.rooms ++ [(id, ⟨id, code, quizId, .lobby, -1, [], [], now⟩)] }

/-- `getRoomByCode(code)`: first room (in insertion order) whose code is
exactly `code`. -/
def getRoomByCode (db : Db) (code : String) : Option Room :=
  (db.rooms.map Prod.snd).find? fun r => r.code == code

/-- `joinRoom(code, name)` (with the generated participant id as oracle
input): fails when no room has the code; otherwise appends a participant
with score 0 and no answered questions. -/
def joinRoom (db : Db) (code name pid : String) : Except String Db :=
  match getRoomByCode db code with
  | none => .error "Room not found"
  | some room =>
      let room' := { room with participants := room.participants ++ [⟨pid, name, 0, []⟩] }
      .ok { db with rooms := setRoom db.rooms room.id room' }

/-- `startQuiz(roomId)`: fails only when the room is absent; otherwise
unconditionally sets status `running` and index 0. -/
def startQuiz (db : Db) (roomId : String) : Except String Db :=
  match recGet db.rooms roomId with
  | none => .error "Room not found"
  | some room =>
      let room' := { room with status := RoomStatus.running, currentQuestionIndex := 0 }
      .ok { db with rooms := setRoom db.rooms roomId room' }

/-- `goToNextQuestion(roomId)`: fails only when the room is absent; below
the last question it increments the index, otherwise it sets status
`finished`. The `db.quizzes[room.quizId]!` assertion of the source is the
`"Quiz missing"` case, unreachable from reachable states. -/
def goToNextQuestion (db : Db) (roomId : String) : Except String Db :=
  match recGet db.rooms roomId with
  | none => .error "Room not found"
  | some room =>
      match recGet db.quizzes room.quizId with
      | none => .error "Quiz missing"
      | some quiz =>
          if room.currentQuestionIndex < (quiz.questions.length : ℤ) - 1 then
            let room' := { room with currentQuestionIndex := room.currentQuestionIndex + 1 }
            .ok { db with rooms := setRoom db.rooms roomId room' }
          else
            let room' := { room with status := RoomStatus.finished }
            .ok { db with rooms := setRoom db.rooms roomId room' }

/-- `finishQuiz(roomId)`: fails only when the room is absent; otherwise
unconditionally sets status `finished`. -/
def finishQuiz (db : Db) (roomId : String) : Except String Db :=
  match recGet db.rooms roomId with
  | none => .error "Room not found"
  | some room =>
      let room' := { room with status := RoomStatus.finished }
      .ok { db with rooms := setRoom db.rooms roomId room' }

/-- `room.answers[questionId] = room.answers[questionId] || []` followed by
`push(answer)`: append to the entry of `questionId` (object keys are
unique, so at most one entry carries it), or append a new entry at the end
when the key is absent. -/
def pushAnswer (answers : List (String × List SubmittedAnswer)) (qid : String)
    (a : SubmittedAnswer) : List (String × List SubmittedAnswer) :=
  match answers with
  | [] => [(qid, [a])]
  | e :: rest =>
      if e.1 = qid then (e.1, e.2 ++ [a]) :: rest
      else e :: pushAnswer rest qid a

/-- The participant update of `submitAnswer`: `find` the first participant
with the given id (if any), add the points to its score and record the
question id once. -/
def creditParticipant (ps : List Participant) (pid : String) (pts : ℤ)
    (qid : String) : List Participant :=
  match ps with
  | [] => []
  | p :: rest =>
      if p.id = pid then
        { p with
          score := p.score + pts,
          answeredQuestionIds :=
            if p.answeredQuestionIds.contains qid then p.answeredQuestionIds
            else p.answeredQuestionIds ++ [qid] } :: rest
      else p :: creditParticipant rest pid pts qid

/-- `submitAnswer(roomId, participantId, questionId, value, timeTakenSec?)`
of `inMemory.ts`: grades and scores the value, appends the answer, credits
the participant when present, and returns the answer. There is no
duplicate check and no participant-existence check. -/
def submitAnswer (db : Db) (roomId participantId questionId : String)
    (value : JSValue) (timeTakenSec : Option ℚ) (now : ℤ) :
    Except String (Db × SubmittedAnswer) :=
  match recGet db.rooms roomId with
  | none => .error "Room not found"
  | some room =>
  match recGet db.quizzes room.quizId with
  | none => .error "Quiz missing"
  | some quiz =>
  match quiz.questions.find? (fun q => q.id == questionId) with
  | none => .error "Question not found"
  | some question =>
      let correct := isAnswerCorrect question value
      let points := calculatePoints question correct timeTakenSec
      let answer : SubmittedAnswer :=
        ⟨questionId, participantId, value, correct, timeTakenSec, now, points⟩
      let room' := { room with
        answers := pushAnswer room.answers questionId answer,
        participants := creditParticipant room.participants participantId points questionId }
      .ok ({ db with rooms := setRoom db.rooms roomId room' }, answer)

/-- `onRoomUpdate(roomId, cb)`: the snapshots delivered to `cb` immediately
at subscription time, before any mutation-triggered push (one snapshot when
the room exists, none otherwise). -/
def onRoomUpdateImmediate (db : Db) (roomId : String) : List RoomSnapshot :=
  match recGet db.rooms roomId with
  | none => []
  | some room =>
      match recGet db.quizzes room.quizId with
      | none => []
      | some quiz => [⟨room, quiz⟩]

/-- The alphabet of `generateRoomCode` in `types.ts`. -/
def roomCodeAlphabet : List Char := "ABCDEFGHJKLMNPQRSTUVWXYZ23456789".data

/-- The possible outputs of `generateRoomCode`: six characters drawn from
`roomCodeAlphabet` (uppercase letters and digits only). -/
def IsGeneratedRoomCode (s : String) : Prop :=
  s.data.length = 6 ∧ ∀ c ∈ s.data, c ∈ roomCodeAlphabet

/-- One external call to the data source, with the outputs of `generateId`,
`generateRoomCode` and `Date.now()` supplied as oracle data. -/
inductive Op where
  | createQuiz (id title : String) (questions : List Question) (now : ℤ) : Op
  | createRoom (quizId id code : String) (now : ℤ) : Op
  | joinRoom (code name pid : String) : Op
  | startQuiz (roomId : String) : Op
  | goToNextQuestion (roomId : String) : Op
  | finishQuiz (roomId : String) : Op
  | submitAnswer (roomId pid qid : String) (value : JSValue) (t : Option ℚ) (now : ℤ) : Op

/-- The effect of one call on the database (the returned payloads are
dropped; a thrown error leaves the database untouched, as in the source,
where every `throw` happens before the first mutation). -/
def applyOp (db : Db) : Op → Except String Db
  | .createQuiz id title qs now => .ok (createQuiz db id title qs now)
  | .createRoom quizId id code now => createRoom db quizId id code now
  | .joinRoom code name pid => joinRoom db code name pid
  | .startQuiz rid => startQuiz db rid
  | .goToNextQuestion rid => goToNextQuestion db rid
  | .finishQuiz rid => finishQuiz db rid
  | .submitAnswer rid pid qid v t now =>
      (submitAnswer db rid pid qid v t now).map Prod.fst

/-- `true` when the participant id is not used by `room`, neither as a
participant id nor as the author of a recorded answer. -/
def pidUnusedIn (room : Room) (pid : String) : Bool :=
  room.participants.all (fun p => p.id != pid) &&
  room.answers.all fun e => e.2.all fun a => a.participantId != pid

/-- The freshness that `generateId` provides in practice, as a side
condition on the oracle data: generated quiz ids, room ids and participant
ids do not collide with ids already in the database. -/
def freshOk (db : Db) : Op → Bool
  | .createQuiz id _ _ _ => db.quizzes.all fun e => e.1 != id
  | .createRoom _ id _ _ => db.rooms.all fun e => e.1 != id
  | .joinRoom _ _ pid => db.rooms.all fun e => pidUnusedIn e.2 pid
  | _ => true

/-- The databases reachable from the empty initial state by any sequence
of calls (failed calls do not change the state). -/
inductive Reachable : Db → Prop where
  | init : Reachable ⟨[], []⟩
  | step {db : Db} (op : Op) {db' : Db} :
      Reachable db → freshOk db op = true → applyOp db op = .ok db' →
      Reachable db'

/-- The answers recorded for a question in a room
(`room.answers[questionId]`, empty when absent). -/
def answersFor (room : Room) (qid : String) : List SubmittedAnswer :=
  (recGet room.answers qid).getD []

/-- How many of the given answers were submitted by a participant. -/
def countBy (l : List SubmittedAnswer) (pid : String) : ℕ :=
  (l.filter fun a => a.participantId == pid).length

/-- The score of the first participant with the given id, if any. -/
def scoreOf (room : Room) (pid : String) : Option ℤ :=
  (room.participants.find? fun p => p.id == pid).map Participant.score

/-- Total points awarded to a participant within one answer list. -/
def sumFor (l : List SubmittedAnswer) (pid : String) : ℤ :=
  ((l.filter fun a => a.participantId == pid).map SubmittedAnswer.pointsAwarded).sum

/-- Total points awarded to a participant over all answers of a room. -/
def answersSum (answers : List (String × List SubmittedAnswer)) (pid : String) : ℤ :=
  (answers.map fun e => sumFor e.2 pid).sum

/-- Position of a status along the lifecycle `lobby → running → finished`. -/
def statusRank : RoomStatus → ℕ
  | .lobby => 0
  | .running => 1
  | .finished => 2

/-- The database produced by a successful `submitAnswer`. -/
def resultDb (r : Except String (Db × SubmittedAnswer)) : Option Db :=
  r.toOption.map Prod.fst

/-- Structural invariants of the in-memory database: room keys are the
(unique) room ids, every room references an existing quiz, participant ids
within a room are unique, and every participant's score is the sum of the
points awarded over their recorded answers. -/
structure DbInv (db : Db) : Prop where
  roomKeys : (db.rooms.map Prod.fst).Nodup
  roomKeyId : ∀ e ∈ db.rooms, (Prod.snd e).id = e.1
  quizFound : ∀ e ∈ db.rooms, (recGet db.quizzes (Prod.snd e).quizId).isSome
  pidsNodup : ∀ e ∈ db.rooms, ((Prod.snd e).participants.map Participant.id).Nodup
  scores : ∀ e ∈ db.rooms, ∀ p ∈ (Prod.snd e).participants,
      p.score = answersSum (Prod.snd e).answers p.id

/-- A concrete multiple-choice question: 10 base points, 30-second limit. -/
def mcq2Q : Question := ⟨"q1", "p", some 10, some 30, .mcq ["a", "b", "c"] 2⟩

/-- A fill-in-blank question expecting the text `5`. -/
def fillFiveQ : Question := ⟨"q", "p", none, none, .fill "5"⟩

/-- A drag question whose canonical pairing is `A → 1`. -/
def dragQA1 : Question := ⟨"q", "p", none, none, .drag [] [] [("A", "1")]⟩

/-- The `SubmittedAnswer` built by `submitAnswer`. -/
def submitMkAnswer (pid qid : String) (v : JSValue) (t : Option ℚ) (now : ℤ)
    (question : Question) : SubmittedAnswer :=
  ⟨qid, pid, v, isAnswerCorrect question v, t, now,
    calculatePoints question (isAnswerCorrect question v) t⟩

/-- `db` with its rooms table replaced (a record update spelled as a
function for readable statements). -/
def withRooms (db : Db) (rooms : List (String × Room)) : Db :=
  { db with rooms := rooms }

/-- `room` with its answers replaced. -/
def withAnswers (room : Room) (answers : List (String × List SubmittedAnswer)) : Room :=
  { room with answers := answers }

/-- The room state written back by a successful `submitAnswer`. -/
def submitRoomUpdate (room : Room) (pid qid : String) (v : JSValue)
    (t : Option ℚ) (now : ℤ) (question : Question) : Room :=
  { room with
    answers := pushAnswer room.answers qid (submitMkAnswer pid qid v t now question),
    participants := creditParticipant room.participants pid
      (submitMkAnswer pid qid v t now question).pointsAwarded qid }

/-- The room state written by `startQuiz`. -/
def startedRoom (room : Room) : Room :=
  { room with status := .running, currentQuestionIndex := 0 }

/-- The room state written by `goToNextQuestion` below the last question. -/
def advancedRoom (room : Room) : Room :=
  { room with currentQuestionIndex := room.currentQuestionIndex + 1 }

/-- The room state written by `goToNextQuestion` at the last question and
by `finishQuiz`. -/
def finishedRoom (room : Room) : Room :=
  { room with status := .finished }

/-- Whether an operation is a `startQuiz` call. -/
def Op.isStartQuiz : Op → Bool
  | .startQuiz _ => true
  | _ => false

/-- Extract the database of a successful result (used to spell the concrete
example states below). -/
def getOkDb (r : Except String Db) : Db :=
  r.toOption.getD ⟨[], []⟩

/-- Fallback room for total projections on the concrete examples. -/
def roomFallback : Room := ⟨"", "", "", .lobby, -1, [], [], 0⟩

/-- A fill-in-blank question expecting `x`, no time limit, default points. -/
def exQ : Question := ⟨"q1", "prompt", none, none, .fill "x"⟩

/-- The quiz holding `exQ`. -/
def exQuiz : Quiz := ⟨"quiz1", "T", [exQ], 0⟩

def exDb0 : Db := ⟨[], []⟩

/-- After `createQuiz`. -/
def exDb1 : Db := createQuiz exDb0 "quiz1" "T" [exQ] 0

/-- After `createRoom` (code `ABC234`). -/
def exDb2 : Db := getOkDb (createRoom exDb1 "quiz1" "r1" "ABC234" 0)

/-- After `joinRoom` by participant `p1` (alice). -/
def exDb3 : Db := getOkDb (joinRoom exDb2 "ABC234" "alice" "p1")

/-- After `startQuiz`. -/
def exDb4 : Db := getOkDb (startQuiz exDb3 "r1")

/-- After p1 submits the correct answer `x` to `q1`. -/
def exDb5 : Db := getOkDb (applyOp exDb4 (.submitAnswer "r1" "p1" "q1" (.str "x") none 1))

/-- After `finishQuiz`. -/
def exDb6 : Db := getOkDb (finishQuiz exDb5 "r1")

/-- Room r1 as of `exDb2`. -/
def exRoom2 : Room := (recGet exDb2.rooms "r1").getD roomFallback

/-- Room r1 as of `exDb5`. -/
def exRoom5 : Room := (recGet exDb5.rooms "r1").getD roomFallback

/-- Room r1 as of `exDb6`. -/
def exRoom6 : Room := (recGet exDb6.rooms "r1").getD roomFallback

/-- Participant p1 as of `exDb5`. -/
def exP1 : Participant := ⟨"p1", "alice", 10, ["q1"]⟩

example : normalizeString " h2o " = normalizeString "H2O" := by decide

example :
    let q : Question :=
      { id := "q2", prompt := "p", points := none, timeLimitSec := none,
        body := .fill "H2O" }
    isAnswerCorrect q (.str " h2o ") = true := by decide

example :
    let q : Question :=
      { id := "q3", prompt := "p", points := none, timeLimitSec := none,
        body := .drag [] [] [("A", "1"), ("B", "2")] }
    isAnswerCorrect q (.obj [("A", .str "1"), ("B", .str "1")]) = false := by decide

example :
    let q : Question :=
      { id := "q1", prompt := "p", points := some 10, timeLimitSec := some 30,
        body := .mcq ["a", "b", "c"] 2 }
    calculatePoints q (isAnswerCorrect q (.num 2)) (some 15) = 5 := by
  simp only [calculatePoints, isAnswerCorrect, jsRound]
  norm_num

theorem recGet_append_some {β : Type} (l₁ l₂ : List (String × β)) (k : String)
    (v : β) (h : recGet l₁ k = some v) : recGet (l₁ ++ l₂) k = some v := by
  induction l₁ with
  | nil => simp [recGet] at h
  | cons e rest ih =>
      simp only [recGet, List.cons_append] at h ⊢
      split at h <;> simp_all [recGet]

theorem recGet_append_none {β : Type} (l₁ l₂ : List (String × β)) (k : String)
    (h : recGet l₁ k = none) : recGet (l₁ ++ l₂) k = recGet l₂ k := by
  induction l₁ with
  | nil => simp
  | cons e rest ih =>
      simp only [recGet, List.cons_append] at h ⊢
      split at h <;> simp_all [recGet]

theorem recGet_setRoom_self (rooms : List (String × Room)) (rid : String)
    (r : Room) (h : (recGet rooms rid).isSome) :
    recGet (setRoom rooms rid r) rid = some r := by
  induction rooms with
  | nil => simp [recGet] at h
  | cons e rest ih =>
      simp only [setRoom, List.map] at *
      by_cases hk : e.1 = rid
      · simp [recGet, hk]
      · simp only [recGet, if_neg hk] at h ⊢
        exact ih h

theorem recGet_setRoom_ne (rooms : List (String × Room)) (rid rid' : String)
    (r : Room) (h : rid' ≠ rid) :
    recGet (setRoom rooms rid r) rid' = recGet rooms rid' := by
  induction rooms with
  | nil => simp [setRoom, recGet]
  | cons e rest ih =>
      simp only [setRoom, List.map] at *
      by_cases hk : e.1 = rid
      · have h2 : rid ≠ rid' := fun hh => h hh.symm
        simp [recGet, hk, h2, ih]
      · simp only [if_neg hk, recGet]
        split
        · rfl
        · exact ih

theorem keys_setRoom (rooms : List (String × Room)) (rid : String) (r : Room) :
    (setRoom rooms rid r).map Prod.fst = rooms.map Prod.fst := by
  induction rooms with
  | nil => simp [setRoom]
  | cons e rest ih =>
      simp only [setRoom, List.map] at *
      by_cases hk : e.1 = rid
      · simp [hk, ih]
      · simp [hk, ih]

theorem mem_setRoom (rooms : List (String × Room)) (rid : String) (r : Room)
    (e : String × Room) (h : e ∈ setRoom rooms rid r) :
    e ∈ rooms ∨ e = (rid, r) := by
  simp only [setRoom, List.mem_map] at h
  obtain ⟨e', he', hfe⟩ := h
  by_cases hk : e'.1 = rid
  · right; simp only [if_pos hk] at hfe; exact hfe.symm
  · left; simp only [if_neg hk] at hfe; exact hfe ▸ he'

theorem mem_of_recGet {β : Type} (l : List (String × β)) (k : String) (v : β)
    (h : recGet l k = some v) : (k, v) ∈ l := by
  induction l with
  | nil => simp [recGet] at h
  | cons e rest ih =>
      simp only [recGet] at h
      split at h
      · rename_i hk
        injection h with h
        cases e
        simp_all
      · right; exact ih h

theorem recGet_of_mem_nodup {β : Type} (l : List (String × β)) (k : String)
    (v : β) (hnd : (l.map Prod.fst).Nodup) (h : (k, v) ∈ l) :
    recGet l k = some v := by
  induction l with
  | nil => simp at h
  | cons e rest ih =>
      simp only [List.map, List.nodup_cons] at hnd
      rcases List.mem_cons.mp h with h1 | h1
      · simp [← h1, recGet]
      · have hk : e.1 ≠ k := by
          intro hkk
          exact hnd.1 (hkk ▸ (List.mem_map.mpr ⟨(k, v), h1, rfl⟩))
        simp only [recGet, if_neg hk]
        exact ih hnd.2 h1

theorem recGet_pushAnswer_self (answers : List (String × List SubmittedAnswer))
    (qid : String) (a : SubmittedAnswer) :
    recGet (pushAnswer answers qid a) qid =
      some ((recGet answers qid).getD [] ++ [a]) := by
  induction answers with
  | nil => simp [pushAnswer, recGet]
  | cons e rest ih =>
      simp only [pushAnswer]
      by_cases hk : e.1 = qid
      · simp [recGet, hk]
      · simp [recGet, if_neg hk, ih]

theorem recGet_pushAnswer_ne (answers : List (String × List SubmittedAnswer))
    (qid qid' : String) (a : SubmittedAnswer) (h : qid' ≠ qid) :
    recGet (pushAnswer answers qid a) qid' = recGet answers qid' := by
  induction answers with
  | nil =>
      have h2 : qid ≠ qid' := fun hh => h hh.symm
      simp [pushAnswer, recGet, h2]
  | cons e rest ih =>
      simp only [pushAnswer]
      split
      · rename_i hk
        have hne : e.1 ≠ qid' := by
          rw [hk]
          exact fun hh => h hh.symm
        simp [recGet, hne]
      · simp only [recGet]
        split
        · rfl
        · exact ih

theorem sumFor_append (l : List SubmittedAnswer) (a : SubmittedAnswer)
    (pid : String) :
    sumFor (l ++ [a]) pid =
      sumFor l pid + (if a.participantId = pid then a.pointsAwarded else 0) := by
  by_cases h : a.participantId = pid
  · have hb : (a.participantId == pid) = true := by simp [h]
    simp [sumFor, List.filter_append, List.filter, hb, h]
  · have hb : (a.participantId == pid) = false := by simp [h]
    simp [sumFor, List.filter_append, List.filter, hb, h]

theorem answersSum_pushAnswer (answers : List (String × List SubmittedAnswer))
    (qid : String) (a : SubmittedAnswer) (pid : String) :
    answersSum (pushAnswer answers qid a) pid =
      answersSum answers pid +
        (if a.participantId = pid then a.pointsAwarded else 0) := by
  induction answers with
  | nil =>
      by_cases h : a.participantId = pid
      · have hb : (a.participantId == pid) = true := by simp [h]
        simp [pushAnswer, answersSum, sumFor, List.filter, hb, h]
      · have hb : (a.participantId == pid) = false := by simp [h]
        simp [pushAnswer, answersSum, sumFor, List.filter, hb, h]
  | cons e rest ih =>
      simp only [pushAnswer]
      by_cases hk : e.1 = qid
      · simp only [if_pos hk, answersSum, List.map, List.sum_cons]
        rw [sumFor_append]
        ring
      · simp only [if_neg hk, answersSum, List.map, List.sum_cons] at *
        rw [ih]
        ring

theorem creditParticipant_ids (ps : List Participant) (pid : String) (pts : ℤ)
    (qid : String) :
    (creditParticipant ps pid pts qid).map Participant.id =
      ps.map Participant.id := by
  induction ps with
  | nil => simp [creditParticipant]
  | cons p rest ih =>
      simp only [creditParticipant]
      by_cases h : p.id = pid
      · simp [h]
      · simp [h, ih]

theorem creditParticipant_no_match (ps : List Participant) (pid : String)
    (pts : ℤ) (qid : String) (h : ∀ p ∈ ps, p.id ≠ pid) :
    creditParticipant ps pid pts qid = ps := by
  induction ps with
  | nil => simp [creditParticipant]
  | cons p rest ih =>
      have hp : p.id ≠ pid := h p (List.mem_cons_self p rest)
      simp only [creditParticipant, if_neg hp]
      rw [ih fun q hq => h q (List.mem_cons_of_mem p hq)]

theorem creditParticipant_mem (ps : List Participant) (pid : String) (pts : ℤ)
    (qid : String) (hnd : (ps.map Participant.id).Nodup) :
    ∀ p' ∈ creditParticipant ps pid pts qid, ∃ p, p ∈ ps ∧ p'.id = p.id ∧
      p'.score = p.score + (if p.id = pid then pts else 0) := by
  induction ps with
  | nil => simp [creditParticipant]
  | cons p rest ih =>
      intro p' hp'
      simp only [List.map, List.nodup_cons] at hnd
      simp only [creditParticipant] at hp'
      by_cases h : p.id = pid
      · rw [if_pos h] at hp'
        rcases List.mem_cons.mp hp' with h1 | h1
        · exact ⟨p, List.mem_cons_self p rest, by simp [h1], by simp [h1, h]⟩
        · refine ⟨p', List.mem_cons_of_mem p h1, rfl, ?_⟩
          have hne : p'.id ≠ pid := by
            intro he
            apply hnd.1
            rw [h]
            exact List.mem_map.mpr ⟨p', h1, he⟩
          simp [hne]
      · rw [if_neg h] at hp'
        rcases List.mem_cons.mp hp' with h1 | h1
        · exact ⟨p, List.mem_cons_self p rest, by simp [h1], by simp [h1, h]⟩
        · obtain ⟨q, hq, h2, h3⟩ := ih hnd.2 p' h1
          exact ⟨q, List.mem_cons_of_mem p hq, h2, h3⟩

theorem creditParticipant_find (ps : List Participant) (pid : String) (pts : ℤ)
    (qid : String) (p : Participant)
    (h : ps.find? (fun x => x.id == pid) = some p) :
    (creditParticipant ps pid pts qid).find? (fun x => x.id == pid) =
      some { p with
        score := p.score + pts,
        answeredQuestionIds :=
          if p.answeredQuestionIds.contains qid then p.answeredQuestionIds
          else p.answeredQuestionIds ++ [qid] } := by
  induction ps with
  | nil => simp [List.find?] at h
  | cons x rest ih =>
      by_cases hx : x.id = pid
      · have hb : (x.id == pid) = true := by simp [hx]
        have hp : x = p := by simpa [List.find?, hb] using h
        subst hp
        simp [creditParticipant, if_pos hx, List.find?, hb]
      · have hb : (x.id == pid) = false := by simp [hx]
        have h' : rest.find? (fun y => y.id == pid) = some p := by
          simpa [List.find?, hb] using h
        simp only [creditParticipant, if_neg hx]
        simpa [List.find?, hb] using ih h'

theorem dbInv_init : DbInv ⟨[], []⟩ := by
  constructor <;> simp

theorem answersSum_eq_zero (answers : List (String × List SubmittedAnswer))
    (pid : String)
    (h : ∀ e ∈ answers, ∀ a ∈ Prod.snd e, a.participantId ≠ pid) :
    answersSum answers pid = 0 := by
  unfold answersSum
  apply List.sum_eq_zero
  intro x hx
  obtain ⟨e, he, hex⟩ := List.mem_map.mp hx
  have : (Prod.snd e).filter (fun a => a.participantId == pid) = [] := by
    apply List.filter_eq_nil_iff.mpr
    intro a ha
    simp [h e he a ha]
  simp [← hex, sumFor, this]

/-- Replacing a room by a room with the same id, quiz, participants and
answers (only status or index changed) preserves the invariants. -/
theorem dbInv_setRoom_same (db : Db) (rid : String) (room room' : Room)
    (hinv : DbInv db) (hget : recGet db.rooms rid = some room)
    (hid : room'.id = room.id) (hq : room'.quizId = room.quizId)
    (hp : room'.participants = room.participants)
    (hans : room'.answers = room.answers) :
    DbInv { db with rooms := setRoom db.rooms rid room' } := by
  have hmem : (rid, room) ∈ db.rooms := mem_of_recGet _ _ _ hget
  have hrid : room.id = rid := hinv.roomKeyId (rid, room) hmem
  constructor
  · simpa [keys_setRoom] using hinv.roomKeys
  · intro e he
    rcases mem_setRoom _ _ _ _ he with h1 | h1
    · exact hinv.roomKeyId e h1
    · subst h1; simpa [hid] using hrid
  · intro e he
    rcases mem_setRoom _ _ _ _ he with h1 | h1
    · exact hinv.quizFound e h1
    · subst h1
      simpa [hq] using hinv.quizFound (rid, room) hmem
  · intro e he
    rcases mem_setRoom _ _ _ _ he with h1 | h1
    · exact hinv.pidsNodup e h1
    · subst h1
      simpa [hp] using hinv.pidsNodup (rid, room) hmem
  · intro e he
    rcases mem_setRoom _ _ _ _ he with h1 | h1
    · exact hinv.scores e h1
    · subst h1
      simpa [hp, hans] using hinv.scores (rid, room) hmem

/-- `joinRoom` with a fresh participant id preserves the invariants. -/
theorem dbInv_joinRoom (db : Db) (rid : String) (room room' : Room)
    (name pid : String) (hinv : DbInv db)
    (hget : recGet db.rooms rid = some room)
    (hroom : room' = { room with participants := room.participants ++ [⟨pid, name, 0, []⟩] })
    (hfresh : ∀ e ∈ db.rooms, pidUnusedIn (Prod.snd e) pid = true) :
    DbInv { db with rooms := setRoom db.rooms rid room' } := by
  subst hroom
  have hmem : (rid, room) ∈ db.rooms := mem_of_recGet _ _ _ hget
  have hrid : room.id = rid := hinv.roomKeyId (rid, room) hmem
  have hfr : pidUnusedIn room pid = true := hfresh (rid, room) hmem
  simp only [pidUnusedIn, Bool.and_eq_true, List.all_eq_true] at hfr
  constructor
  · simpa [keys_setRoom] using hinv.roomKeys
  · intro e he
    rcases mem_setRoom _ _ _ _ he with h1 | h1
    · exact hinv.roomKeyId e h1
    · subst h1; simpa using hrid
  · intro e he
    rcases mem_setRoom _ _ _ _ he with h1 | h1
    · exact hinv.quizFound e h1
    · subst h1
      simpa using hinv.quizFound (rid, room) hmem
  · intro e he
    rcases mem_setRoom _ _ _ _ he with h1 | h1
    · exact hinv.pidsNodup e h1
    · subst h1
      have hold := hinv.pidsNodup (rid, room) hmem
      simp only [List.map_append, List.map, List.nodup_append]
      refine ⟨hold, by simp, ?_⟩
      intro x hx
      obtain ⟨p, hp, hpx⟩ := List.mem_map.mp hx
      have := hfr.1 p hp
      rw [bne_iff_ne] at this
      simp only [List.mem_singleton]
      rw [← hpx]
      exact this
  · intro e he
    rcases mem_setRoom _ _ _ _ he with h1 | h1
    · exact hinv.scores e h1
    · subst h1
      intro p hp
      simp only [List.mem_append, List.mem_singleton] at hp
      rcases hp with hp | hp
      · exact hinv.scores (rid, room) hmem p hp
      · subst hp
        simp only
        rw [answersSum_eq_zero]
        intro e' he' a ha
        have := hfr.2 e' he' a ha
        rwa [bne_iff_ne] at this

/-- `submitAnswer`'s room mutation preserves the invariants: the answer is
appended with the same points that are added to the (unique) matching
participant's score. -/
theorem dbInv_submit (db : Db) (rid : String) (room room' : Room)
    (pid qid : String) (a : SubmittedAnswer) (hinv : DbInv db)
    (hget : recGet db.rooms rid = some room)
    (hapid : a.participantId = pid)
    (hroom : room' = { room with
        answers := pushAnswer room.answers qid a,
        participants := creditParticipant room.participants pid a.pointsAwarded qid }) :
    DbInv { db with rooms := setRoom db.rooms rid room' } := by
  subst hroom
  have hmem : (rid, room) ∈ db.rooms := mem_of_recGet _ _ _ hget
  have hrid : room.id = rid := hinv.roomKeyId (rid, room) hmem
  constructor
  · simpa [keys_setRoom] using hinv.roomKeys
  · intro e he
    rcases mem_setRoom _ _ _ _ he with h1 | h1
    · exact hinv.roomKeyId e h1
    · subst h1; simpa using hrid
  · intro e he
    rcases mem_setRoom _ _ _ _ he with h1 | h1
    · exact hinv.quizFound e h1
    · subst h1
      simpa using hinv.quizFound (rid, room) hmem
  · intro e he
    rcases mem_setRoom _ _ _ _ he with h1 | h1
    · exact hinv.pidsNodup e h1
    · subst h1
      simpa [creditParticipant_ids] using hinv.pidsNodup (rid, room) hmem
  · intro e he
    rcases mem_setRoom _ _ _ _ he with h1 | h1
    · exact hinv.scores e h1
    · subst h1
      intro p' hp'
      simp only at hp' ⊢
      obtain ⟨p, hp, hid, hsc⟩ :=
        creditParticipant_mem room.participants pid a.pointsAwarded qid
          (hinv.pidsNodup (rid, room) hmem) p' hp'
      have hold := hinv.scores (rid, room) hmem p hp
      rw [answersSum_pushAnswer, hid, ← hold, hapid]
      rw [hsc]
      by_cases hcase : p.id = pid
      · simp [hcase]
      · have : pid ≠ p.id := fun hh => hcase hh.symm
        simp [hcase, this]

/-- Every successful operation preserves the database invariants. -/
theorem dbInv_step (db : Db) (op : Op) (db' : Db) (hinv : DbInv db)
    (hf : freshOk db op = true) (ha : applyOp db op = .ok db') : DbInv db' := by
  cases op with
  | createQuiz id title qs now =>
      simp only [applyOp, Except.ok.injEq] at ha
      subst ha
      refine ⟨hinv.roomKeys, hinv.roomKeyId, ?_, hinv.pidsNodup, hinv.scores⟩
      intro e he
      rcases Option.isSome_iff_exists.mp (hinv.quizFound e he) with ⟨q, hq⟩
      simp [createQuiz, recGet_append_some _ _ _ _ hq]
  | createRoom quizId id code now =>
      simp only [applyOp] at ha
      unfold createRoom at ha
      cases hq : recGet db.quizzes quizId with
      | none => rw [hq] at ha; exact absurd ha (by simp)
      | some q =>
          rw [hq] at ha
          simp only [Except.ok.injEq] at ha
          subst ha
          have hfr : ∀ e ∈ db.rooms, e.1 ≠ id := by
            simp only [freshOk, List.all_eq_true] at hf
            intro e he
            exact bne_iff_ne.mp (hf e he)
          constructor
          · simp only [List.map_append, List.map]
            rw [List.nodup_append]
            refine ⟨hinv.roomKeys, by simp, ?_⟩
            intro x hx
            simp only [List.mem_singleton]
            obtain ⟨e, he, hex⟩ := List.mem_map.mp hx
            rw [← hex]
            exact hfr e he
          · intro e he
            rcases List.mem_append.mp he with h1 | h1
            · exact hinv.roomKeyId e h1
            · simp only [List.mem_singleton] at h1; subst h1; rfl
          · intro e he
            rcases List.mem_append.mp he with h1 | h1
            · exact hinv.quizFound e h1
            · simp only [List.mem_singleton] at h1; subst h1; simp [hq]
          · intro e he
            rcases List.mem_append.mp he with h1 | h1
            · exact hinv.pidsNodup e h1
            · simp only [List.mem_singleton] at h1; subst h1; simp
          · intro e he
            rcases List.mem_append.mp he with h1 | h1
            · exact hinv.scores e h1
            · simp only [List.mem_singleton] at h1; subst h1; simp
  | joinRoom code name pid =>
      simp only [applyOp] at ha
      unfold joinRoom at ha
      cases hg : getRoomByCode db code with
      | none => rw [hg] at ha; exact absurd ha (by simp)
      | some room =>
          rw [hg] at ha
          simp only [Except.ok.injEq] at ha
          subst ha
          have hmem : room ∈ db.rooms.map Prod.snd := by
            unfold getRoomByCode at hg
            exact List.mem_of_find?_eq_some hg
          obtain ⟨e, he, hee⟩ := List.mem_map.mp hmem
          have hget : recGet db.rooms room.id = some room := by
            apply recGet_of_mem_nodup _ _ _ hinv.roomKeys
            have hkey : e = (room.id, room) := by
              have h2 := hinv.roomKeyId e he
              rw [hee] at h2
              cases e
              simp_all
            rw [← hkey]
            exact he
          have hfresh : ∀ e ∈ db.rooms, pidUnusedIn (Prod.snd e) pid = true := by
            simpa [freshOk, List.all_eq_true] using hf
          exact dbInv_joinRoom db room.id room _ name pid hinv hget rfl hfresh
  | startQuiz rid =>
      simp only [applyOp] at ha
      unfold startQuiz at ha
      cases hg : recGet db.rooms rid with
      | none => rw [hg] at ha; exact absurd ha (by simp)
      | some room =>
          rw [hg] at ha
          simp only [Except.ok.injEq] at ha
          subst ha
          exact dbInv_setRoom_same db rid room _ hinv hg rfl rfl rfl rfl
  | goToNextQuestion rid =>
      simp only [applyOp] at ha
      unfold goToNextQuestion at ha
      cases hg : recGet db.rooms rid with
      | none => rw [hg] at ha; exact absurd ha (by simp)
      | some room =>
          simp only [hg] at ha
          cases hq : recGet db.quizzes room.quizId with
          | none => simp only [hq] at ha; exact absurd ha (by simp)
          | some quiz =>
              simp only [hq] at ha
              by_cases hidx : room.currentQuestionIndex < (quiz.questions.length : ℤ) - 1
              · rw [if_pos hidx] at ha
                simp only [Except.ok.injEq] at ha
                subst ha
                exact dbInv_setRoom_same db rid room _ hinv hg rfl rfl rfl rfl
              · rw [if_neg hidx] at ha
                simp only [Except.ok.injEq] at ha
                subst ha
                exact dbInv_setRoom_same db rid room _ hinv hg rfl rfl rfl rfl
  | finishQuiz rid =>
      simp only [applyOp] at ha
      unfold finishQuiz at ha
      cases hg : recGet db.rooms rid with
      | none => rw [hg] at ha; exact absurd ha (by simp)
      | some room =>
          rw [hg] at ha
          simp only [Except.ok.injEq] at ha
          subst ha
          exact dbInv_setRoom_same db rid room _ hinv hg rfl rfl rfl rfl
  | submitAnswer rid pid qid v t now =>
      simp only [applyOp] at ha
      unfold submitAnswer at ha
      cases hg : recGet db.rooms rid with
      | none => rw [hg] at ha; exact absurd ha (by simp [Except.map])
      | some room =>
          simp only [hg] at ha
          cases hq : recGet db.quizzes room.quizId with
          | none => simp only [hq, Except.map] at ha; exact absurd ha (by simp)
          | some quiz =>
              simp only [hq] at ha
              cases hfq : quiz.questions.find? (fun q => q.id == qid) with
              | none => simp only [hfq, Except.map] at ha; exact absurd ha (by simp)
              | some question =>
                  simp only [hfq, Except.map, Except.ok.injEq] at ha
                  subst ha
                  exact dbInv_submit db rid room _ pid qid
                    ⟨qid, pid, v, isAnswerCorrect question v, t, now,
                      calculatePoints question (isAnswerCorrect question v) t⟩
                    hinv hg rfl rfl

/-- Every reachable database satisfies the invariants. -/
theorem dbInv_reachable {db : Db} (h : Reachable db) : DbInv db := by
  induction h with
  | init => exact dbInv_init
  | step op hr hf ha ih => exact dbInv_step _ op _ ih hf ha

theorem jsRound_intCast (z : ℤ) : jsRound (z : ℚ) = z := by
  unfold jsRound
  rw [add_comm, Int.floor_add_int]
  norm_num

/-- Claim C5: scoring returns 0 for incorrect answers; the full base value
(default 10) when no time limit is configured or no time was recorded; and
otherwise `round(base * max(0.5, 1 - max(0, timeTaken) / timeLimit))`, so
that `timeTaken = 0` scores `base`, `timeTaken = timeLimit` and
`timeTaken > timeLimit` score `round(base * 0.5)`, and a negative
`timeTaken` scores exactly `base`, never more. -/
theorem calculatePoints_spec (q : Question) (t tl : ℚ) :
    (∀ u : Option ℚ, calculatePoints q false u = 0)
    ∧ calculatePoints q true none = q.points.getD 10
    ∧ (q.timeLimitSec = none → calculatePoints q true (some t) = q.points.getD 10)
    ∧ (q.timeLimitSec = some tl → 0 < tl →
        calculatePoints q true (some t) =
          jsRound ((q.points.getD 10 : ℚ) * max (1/2) (1 - max 0 t / tl))
        ∧ calculatePoints q true (some 0) = q.points.getD 10
        ∧ calculatePoints q true (some tl) =
            jsRound ((q.points.getD 10 : ℚ) * (1/2))
        ∧ (tl < t → calculatePoints q true (some t) =
            jsRound ((q.points.getD 10 : ℚ) * (1/2)))
        ∧ (t < 0 → calculatePoints q true (some t) = q.points.getD 10)) := by
  refine ⟨?_, ?_, ?_, ?_⟩
  · intro u
    simp [calculatePoints]
  · cases hq : q.timeLimitSec <;> simp [calculatePoints, hq]
  · intro h
    simp [calculatePoints, h]
  · intro h h0
    have htl0 : ¬ tl = 0 := ne_of_gt h0
    have key : ∀ u : ℚ, calculatePoints q true (some u) =
        jsRound ((q.points.getD 10 : ℚ) * max (1/2) (1 - max 0 u / tl)) := by
      intro u
      simp [calculatePoints, h, htl0]
    refine ⟨key t, ?_, ?_, ?_, ?_⟩
    · rw [key 0, max_self, zero_div, sub_zero,
        max_eq_right (by norm_num : (1/2 : ℚ) ≤ 1), mul_one, jsRound_intCast]
    · rw [key tl, max_eq_right h0.le, div_self htl0, sub_self,
        max_eq_left (by norm_num : (0:ℚ) ≤ 1/2)]
    · intro hlt
      have h1 : 1 < t / tl := (one_lt_div h0).mpr hlt
      rw [key t, max_eq_right (le_of_lt (lt_trans h0 hlt)),
        max_eq_left (by linarith : 1 - t / tl ≤ 1/2)]
    · intro hneg
      rw [key t, max_eq_left hneg.le, zero_div, sub_zero,
        max_eq_right (by norm_num : (1/2 : ℚ) ≤ 1), mul_one, jsRound_intCast]

/-- Witness for C5: the concrete question of the spec example, answered at
15 of 30 seconds and exactly at the limit. -/
theorem calculatePoints_spec_witness :
    calculatePoints mcq2Q true (some 15) =
      jsRound ((mcq2Q.points.getD 10 : ℚ) * max (1/2) (1 - max 0 15 / 30))
    ∧ calculatePoints mcq2Q true (some 30) =
      jsRound ((mcq2Q.points.getD 10 : ℚ) * (1/2)) :=
  ⟨((calculatePoints_spec mcq2Q 15 30).2.2.2 rfl (by norm_num)).1,
   ((calculatePoints_spec mcq2Q 30 30).2.2.2 rfl (by norm_num)).2.2.1⟩

/-- Claim C8 (amended): fill-in-blank grading accepts exactly the string
values whose trimmed, lowercased form equals that of the expected answer;
every non-string value grades as incorrect (there is no string coercion). -/
theorem fill_grading_characterization (id prompt : String) (pts : Option ℤ)
    (tl : Option ℚ) (expected : String) (v : JSValue) :
    isAnswerCorrect ⟨id, prompt, pts, tl, .fill expected⟩ v = true ↔
      ∃ s, v = JSValue.str s ∧ normalizeString s = normalizeString expected := by
  cases v <;> simp [isAnswerCorrect]

/-- Claim C8 counterexample: the number `5` is graded incorrect even though
its string coercion `"5"` normalizes to the expected answer (the same text
submitted as a string is graded correct). -/
theorem fill_non_string_counterexample :
    isAnswerCorrect fillFiveQ (JSValue.num 5) = false
    ∧ isAnswerCorrect fillFiveQ (JSValue.str "5") = true :=
  ⟨rfl, by decide⟩

/-- Claim C4 (amended): match/drag grading returns true iff the submitted
object maps every canonical item identifier to its canonical target;
missing or misassigned entries grade incorrect and non-objects grade
incorrect, but extra entries outside the canonical pairing are ignored
(appending them to a correct mapping keeps it correct). -/
theorem drag_grading_characterization (id prompt : String) (pts : Option ℤ)
    (tl : Option ℚ) (items targets : List DragItem)
    (expected : List (String × String)) (mapping extra : List (String × JSValue)) :
    (isAnswerCorrect ⟨id, prompt, pts, tl, .drag items targets expected⟩
        (.obj mapping) = true ↔
      ∀ kv ∈ expected, jsGet mapping kv.1 = some (JSValue.str kv.2))
    ∧ (isAnswerCorrect ⟨id, prompt, pts, tl, .drag items targets expected⟩
        (.obj mapping) = true →
      isAnswerCorrect ⟨id, prompt, pts, tl, .drag items targets expected⟩
        (.obj (mapping ++ extra)) = true)
    ∧ (∀ v : JSValue, (∀ fields, v ≠ .obj fields) →
      isAnswerCorrect ⟨id, prompt, pts, tl, .drag items targets expected⟩
        v = false) := by
  refine ⟨?_, ?_, ?_⟩
  · simp only [isAnswerCorrect, List.all_eq_true]
    constructor
    · intro h kv hkv
      have hk := h kv hkv
      cases hj : jsGet mapping kv.1 with
      | none => rw [hj] at hk; simp at hk
      | some w =>
          rw [hj] at hk
          cases w <;> simp_all [beq_iff_eq]
    · intro h kv hkv
      rw [h kv hkv]
      simp
  · intro h
    simp only [isAnswerCorrect, List.all_eq_true] at h ⊢
    intro kv hkv
    have hk := h kv hkv
    cases hj : jsGet mapping kv.1 with
    | none => rw [hj] at hk; simp at hk
    | some w =>
        rw [hj] at hk
        have h2 : jsGet (mapping ++ extra) kv.1 = some w :=
          recGet_append_some _ _ _ _ hj
        rw [h2]
        exact hk
  · intro v hv
    cases v with
    | obj fields => exact absurd rfl (hv fields)
    | null => simp [isAnswerCorrect]
    | bool b => simp [isAnswerCorrect]
    | num n => simp [isAnswerCorrect]
    | str s => simp [isAnswerCorrect]

/-- Claim C4 counterexample: a mapping containing the extra entry `X → 9`,
which is not part of the canonical pairing, still grades as correct. -/
theorem drag_extra_entries_counterexample :
    isAnswerCorrect dragQA1 (.obj [("A", .str "1"), ("X", .str "9")]) = true
    ∧ recGet [("A", "1")] "X" = none :=
  ⟨by decide, rfl⟩

/-- Witness for C4: appending the extra entry `X → 9` to the correct
mapping `{A: "1"}` keeps it graded correct, via the characterization. -/
theorem drag_grading_characterization_witness :
    isAnswerCorrect ⟨"q", "p", none, none, .drag [] [] [("A", "1")]⟩
      (.obj ([("A", .str "1")] ++ [("X", .str "9")])) = true :=
  (drag_grading_characterization "q" "p" none none [] [] [("A", "1")]
    [("A", .str "1")] [("X", .str "9")]).2.1 (by decide)

theorem countBy_append_self (l : List SubmittedAnswer) (a : SubmittedAnswer)
    (pid : String) (h : a.participantId = pid) :
    countBy (l ++ [a]) pid = countBy l pid + 1 := by
  have hb : (a.participantId == pid) = true := by simp [h]
  simp [countBy, List.filter_append, List.filter, hb]

theorem submitAnswer_ok (db : Db) (rid pid qid : String) (v : JSValue)
    (t : Option ℚ) (now : ℤ) (room : Room) (quiz : Quiz) (question : Question)
    (hg : recGet db.rooms rid = some room)
    (hq : recGet db.quizzes room.quizId = some quiz)
    (hfq : quiz.questions.find? (fun q => q.id == qid) = some question) :
    submitAnswer db rid pid qid v t now = .ok
      (withRooms db (setRoom db.rooms rid
          (submitRoomUpdate room pid qid v t now question)),
        submitMkAnswer pid qid v t now question) := by
  unfold submitAnswer
  simp only [hg, hq, hfq]
  rfl

/-- Claim C1 (amended): a second `submitAnswer` for a (participant,
question) pair that already has a recorded answer is not rejected: it
succeeds, appends one more Submitted Answer for that pair — so the pair
then has at least two — and adds the computed points to the participant's
score a second time. -/
theorem submitAnswer_duplicate_appends (db : Db) (rid pid qid : String)
    (v : JSValue) (t : Option ℚ) (now : ℤ) (room : Room) (quiz : Quiz)
    (question : Question) (sc : ℤ)
    (hg : recGet db.rooms rid = some room)
    (hq : recGet db.quizzes room.quizId = some quiz)
    (hfq : quiz.questions.find? (fun q => q.id == qid) = some question)
    (hdup : 1 ≤ countBy (answersFor room qid) pid)
    (hsc : scoreOf room pid = some sc) :
    ∃ room2 : Room,
      (resultDb (submitAnswer db rid pid qid v t now)).bind
        (fun d => recGet d.rooms rid) = some room2
      ∧ countBy (answersFor room2 qid) pid = countBy (answersFor room qid) pid + 1
      ∧ 2 ≤ countBy (answersFor room2 qid) pid
      ∧ scoreOf room2 pid =
          some (sc + calculatePoints question (isAnswerCorrect question v) t) := by
  obtain ⟨p, hp, hpsc⟩ : ∃ p, room.participants.find? (fun x => x.id == pid) = some p
      ∧ p.score = sc := by
    unfold scoreOf at hsc
    cases hf2 : room.participants.find? (fun x => x.id == pid) with
    | none => rw [hf2] at hsc; simp at hsc
    | some p =>
        rw [hf2] at hsc
        simp only [Option.map] at hsc
        exact ⟨p, rfl, by injection hsc⟩
  refine ⟨submitRoomUpdate room pid qid v t now question, ?_, ?_, ?_, ?_⟩
  · rw [submitAnswer_ok db rid pid qid v t now room quiz question hg hq hfq]
    simp only [resultDb, Except.toOption, Option.map, Option.bind]
    exact recGet_setRoom_self _ _ _ (by simp [hg])
  · unfold submitRoomUpdate answersFor
    rw [recGet_pushAnswer_self, Option.getD_some]
    exact countBy_append_self _ _ _ rfl
  · unfold submitRoomUpdate answersFor
    rw [recGet_pushAnswer_self, Option.getD_some,
      countBy_append_self ((recGet room.answers qid).getD [])
        (submitMkAnswer pid qid v t now question) pid rfl]
    unfold answersFor at hdup
    omega
  · unfold submitRoomUpdate scoreOf
    rw [creditParticipant_find _ _ _ _ _ hp]
    simp [submitMkAnswer, hpsc]

/-- Claim C7 (amended): `submitAnswer` with a participant id that belongs
to no participant of the room does not fail: it grades the value, appends
the Submitted Answer under that id and returns it, while the participant
list (hence every score) is left unchanged. -/
theorem submitAnswer_unknown_participant (db : Db) (rid pid qid : String)
    (v : JSValue) (t : Option ℚ) (now : ℤ) (room : Room) (quiz : Quiz)
    (question : Question)
    (hg : recGet db.rooms rid = some room)
    (hq : recGet db.quizzes room.quizId = some quiz)
    (hfq : quiz.questions.find? (fun q => q.id == qid) = some question)
    (hnp : ∀ p ∈ room.participants, p.id ≠ pid) :
    submitAnswer db rid pid qid v t now = .ok
      (withRooms db (setRoom db.rooms rid
          (withAnswers room (pushAnswer room.answers qid
            (submitMkAnswer pid qid v t now question)))),
        submitMkAnswer pid qid v t now question) := by
  rw [submitAnswer_ok db rid pid qid v t now room quiz question hg hq hfq]
  unfold submitRoomUpdate withAnswers
  rw [creditParticipant_no_match _ _ _ _ hnp]

/-- Claim C3 (amended): there is no `InvalidTransition` check. `startQuiz`
fails only when the room does not exist; on any existing room — whatever
its status — it succeeds and sets status `running` with index 0.
`goToNextQuestion` likewise checks only existence (and its quiz reference):
below the last question it increments the index, otherwise it sets status
`finished`, in both cases regardless of the current status. -/
theorem startQuiz_advance_unconditional (db : Db) (rid : String) (room : Room)
    (quiz : Quiz) (hg : recGet db.rooms rid = some room)
    (hq : recGet db.quizzes room.quizId = some quiz) :
    startQuiz db rid = .ok (withRooms db (setRoom db.rooms rid (startedRoom room)))
    ∧ (room.currentQuestionIndex < (quiz.questions.length : ℤ) - 1 →
        goToNextQuestion db rid =
          .ok (withRooms db (setRoom db.rooms rid (advancedRoom room))))
    ∧ (¬ room.currentQuestionIndex < (quiz.questions.length : ℤ) - 1 →
        goToNextQuestion db rid =
          .ok (withRooms db (setRoom db.rooms rid (finishedRoom room))))
    ∧ (∀ db2 : Db, recGet db2.rooms rid = none →
        startQuiz db2 rid = .error "Room not found"
        ∧ goToNextQuestion db2 rid = .error "Room not found") := by
  refine ⟨?_, ?_, ?_, ?_⟩
  · unfold startQuiz
    simp only [hg]
    rfl
  · intro h
    unfold goToNextQuestion
    simp only [hg, hq, if_pos h]
    rfl
  · intro h
    unfold goToNextQuestion
    simp only [hg, hq, if_neg h]
    rfl
  · intro db2 h2
    constructor
    · unfold startQuiz
      simp [h2]
    · unfold goToNextQuestion
      simp [h2]

/-- Claim C9: subscribing via `onRoomUpdate` delivers exactly one immediate
snapshot of the current room and quiz when the room exists (its quiz
reference resolves in every reachable database), and no catch-up snapshot
when the room does not exist. -/
theorem onRoomUpdate_catchup (db : Db) (rid : String) (room : Room)
    (quiz : Quiz) (hg : recGet db.rooms rid = some room)
    (hq : recGet db.quizzes room.quizId = some quiz) :
    onRoomUpdateImmediate db rid = [⟨room, quiz⟩]
    ∧ (∀ db2 : Db, recGet db2.rooms rid = none →
        onRoomUpdateImmediate db2 rid = []) := by
  constructor
  · unfold onRoomUpdateImmediate
    simp [hg, hq]
  · intro db2 h2
    unfold onRoomUpdateImmediate
    simp [h2]

/-- Claim C10: lookup by join code is exact, case-sensitive string
comparison: when no active room's code is exactly the queried string — in
particular for any case variant differing from the stored code —
`getRoomByCode` returns null and `joinRoom` fails with "Room not found";
and every generated room code consists of uppercase letters and digits
only. -/
theorem getRoomByCode_exact (db : Db) (c : String)
    (h : ∀ e ∈ db.rooms, (Prod.snd e).code ≠ c) :
    getRoomByCode db c = none
    ∧ (∀ name pid, joinRoom db c name pid = .error "Room not found")
    ∧ (∀ s : String, IsGeneratedRoomCode s →
        ∀ ch ∈ s.data, ch.isUpper = true ∨ ch.isDigit = true) := by
  have hg : getRoomByCode db c = none := by
    unfold getRoomByCode
    rw [List.find?_eq_none]
    intro r hr
    obtain ⟨e, he, hee⟩ := List.mem_map.mp hr
    have h2 := h e he
    rw [hee] at h2
    simp [h2]
  refine ⟨hg, ?_, ?_⟩
  · intro name pid
    unfold joinRoom
    rw [hg]
  · intro s hs ch hch
    have halpha : ∀ c2 ∈ roomCodeAlphabet, c2.isUpper = true ∨ c2.isDigit = true := by
      decide
    exact halpha ch (hs.2 ch hch)

/-- Claim C6: in every reachable database — that is, after every sequence
of (successful or failed) operations from the initial state — each
participant's score equals the sum of `pointsAwarded` over the Submitted
Answers recorded in that room under the participant's id. -/
theorem participant_score_invariant {db : Db} (h : Reachable db)
    (rid : String) (room : Room) (hg : recGet db.rooms rid = some room) :
    ∀ p ∈ room.participants, p.score = answersSum room.answers p.id :=
  fun p hp => (dbInv_reachable h).scores (rid, room) (mem_of_recGet _ _ _ hg) p hp

theorem statusRank_le_two (s : RoomStatus) : statusRank s ≤ 2 := by
  cases s <;> simp [statusRank]

/-- Claim C2 (amended): for every reachable database, no operation other
than `startQuiz` ever moves a room's status backward along
`lobby → running → finished`. (`startQuiz` is excluded because it resets
any existing room — even a finished one — to `running` with index 0; and a
finished room still accepts `joinRoom` and `submitAnswer` mutations.) -/
theorem status_monotone_without_startQuiz (db db' : Db) (op : Op)
    (hr : Reachable db) (hop : Op.isStartQuiz op = false)
    (ha : applyOp db op = .ok db') (rid : String) (room room' : Room)
    (h1 : recGet db.rooms rid = some room)
    (h2 : recGet db'.rooms rid = some room') :
    statusRank room.status ≤ statusRank room'.status := by
  cases op with
  | startQuiz r => simp [Op.isStartQuiz] at hop
  | createQuiz id title qs now =>
      simp only [applyOp, Except.ok.injEq] at ha
      subst ha
      simp only [createQuiz] at h2
      rw [h1] at h2
      injection h2 with h2
      exact le_of_eq (by rw [h2])
  | createRoom quizId id code now =>
      simp only [applyOp] at ha
      unfold createRoom at ha
      cases hq : recGet db.quizzes quizId with
      | none => rw [hq] at ha; exact absurd ha (by simp)
      | some q =>
          rw [hq] at ha
          simp only [Except.ok.injEq] at ha
          subst ha
          simp only at h2
          rw [recGet_append_some db.rooms _ rid room h1] at h2
          injection h2 with h2
          exact le_of_eq (by rw [h2])
  | joinRoom code name pid =>
      simp only [applyOp] at ha
      unfold joinRoom at ha
      cases hgc : getRoomByCode db code with
      | none => rw [hgc] at ha; exact absurd ha (by simp)
      | some room0 =>
          rw [hgc] at ha
          simp only [Except.ok.injEq] at ha
          subst ha
          simp only at h2
          by_cases hrid : rid = room0.id
          · have hinv := dbInv_reachable hr
            have hmem : room0 ∈ db.rooms.map Prod.snd := by
              unfold getRoomByCode at hgc
              exact List.mem_of_find?_eq_some hgc
            obtain ⟨e, he, hee⟩ := List.mem_map.mp hmem
            have hget : recGet db.rooms room0.id = some room0 := by
              apply recGet_of_mem_nodup _ _ _ hinv.roomKeys
              have hkey : e = (room0.id, room0) := by
                have hx := hinv.roomKeyId e he
                rw [hee] at hx
                cases e
                simp_all
              rw [← hkey]
              exact he
            rw [hrid] at h1 h2
            rw [hget] at h1
            injection h1 with h1
            rw [recGet_setRoom_self _ _ _ (by simp [hget])] at h2
            injection h2 with h2
            rw [← h2, ← h1]
          · rw [recGet_setRoom_ne _ _ _ _ hrid, h1] at h2
            injection h2 with h2
            exact le_of_eq (by rw [h2])
  | goToNextQuestion r =>
      simp only [applyOp] at ha
      unfold goToNextQuestion at ha
      cases hgr : recGet db.rooms r with
      | none => rw [hgr] at ha; exact absurd ha (by simp)
      | some room0 =>
          simp only [hgr] at ha
          cases hqz : recGet db.quizzes room0.quizId with
          | none => simp only [hqz] at ha; exact absurd ha (by simp)
          | some quiz =>
              simp only [hqz] at ha
              by_cases hidx : room0.currentQuestionIndex < (quiz.questions.length : ℤ) - 1
              · rw [if_pos hidx] at ha
                simp only [Except.ok.injEq] at ha
                subst ha
                simp only at h2
                by_cases hrid : rid = r
                · subst hrid
                  rw [hgr] at h1
                  injection h1 with h1
                  rw [recGet_setRoom_self _ _ _ (by simp [hgr])] at h2
                  injection h2 with h2
                  rw [← h2, ← h1]
                · rw [recGet_setRoom_ne _ _ _ _ hrid, h1] at h2
                  injection h2 with h2
                  exact le_of_eq (by rw [h2])
              · rw [if_neg hidx] at ha
                simp only [Except.ok.injEq] at ha
                subst ha
                simp only at h2
                by_cases hrid : rid = r
                · subst hrid
                  rw [hgr] at h1
                  injection h1 with h1
                  rw [recGet_setRoom_self _ _ _ (by simp [hgr])] at h2
                  injection h2 with h2
                  rw [← h2, ← h1]
                  exact statusRank_le_two _
                · rw [recGet_setRoom_ne _ _ _ _ hrid, h1] at h2
                  injection h2 with h2
                  exact le_of_eq (by rw [h2])
  | finishQuiz r =>
      simp only [applyOp] at ha
      unfold finishQuiz at ha
      cases hgr : recGet db.rooms r with
      | none => rw [hgr] at ha; exact absurd ha (by simp)
      | some room0 =>
          rw [hgr] at ha
          simp only [Except.ok.injEq] at ha
          subst ha
          simp only at h2
          by_cases hrid : rid = r
          · subst hrid
            rw [hgr] at h1
            injection h1 with h1
            rw [recGet_setRoom_self _ _ _ (by simp [hgr])] at h2
            injection h2 with h2
            rw [← h2, ← h1]
            exact statusRank_le_two _
          · rw [recGet_setRoom_ne _ _ _ _ hrid, h1] at h2
            injection h2 with h2
            exact le_of_eq (by rw [h2])
  | submitAnswer r pid qid v t now =>
      simp only [applyOp] at ha
      unfold submitAnswer at ha
      cases hgr : recGet db.rooms r with
      | none => rw [hgr] at ha; exact absurd ha (by simp [Except.map])
      | some room0 =>
          simp only [hgr] at ha
          cases hqz : recGet db.quizzes room0.quizId with
          | none => simp only [hqz, Except.map] at ha; exact absurd ha (by simp)
          | some quiz =>
              simp only [hqz] at ha
              cases hfq : quiz.questions.find? (fun q => q.id == qid) with
              | none => simp only [hfq, Except.map] at ha; exact absurd ha (by simp)
              | some question =>
                  simp only [hfq, Except.map, Except.ok.injEq] at ha
                  subst ha
                  simp only at h2
                  by_cases hrid : rid = r
                  · subst hrid
                    rw [hgr] at h1
                    injection h1 with h1
                    rw [recGet_setRoom_self _ _ _ (by simp [hgr])] at h2
                    injection h2 with h2
                    rw [← h2, ← h1]
                  · rw [recGet_setRoom_ne _ _ _ _ hrid, h1] at h2
                    injection h2 with h2
                    exact le_of_eq (by rw [h2])

theorem exReach1 : Reachable exDb1 :=
  Reachable.step (Op.createQuiz "quiz1" "T" [exQ] 0) Reachable.init rfl rfl

theorem exReach2 : Reachable exDb2 :=
  Reachable.step (Op.createRoom "quiz1" "r1" "ABC234" 0) exReach1 rfl rfl

theorem exReach3 : Reachable exDb3 :=
  Reachable.step (Op.joinRoom "ABC234" "alice" "p1") exReach2 rfl rfl

theorem exReach4 : Reachable exDb4 :=
  Reachable.step (Op.startQuiz "r1") exReach3 rfl rfl

theorem exReach5 : Reachable exDb5 :=
  Reachable.step (Op.submitAnswer "r1" "p1" "q1" (.str "x") none 1) exReach4 rfl rfl

theorem exReach6 : Reachable exDb6 :=
  Reachable.step (Op.finishQuiz "r1") exReach5 rfl rfl

/-- Claim C1 counterexample: in the concrete session `exDb5`, participant
p1 has already answered question q1 (one recorded answer, score 10); a
second `submitAnswer` for the same pair succeeds instead of failing — and
afterwards the pair has two recorded answers and the score has doubled to
20. -/
theorem submitAnswer_dup_counterexample :
    ((recGet exDb5.rooms "r1").map fun r =>
        (countBy (answersFor r "q1") "p1", scoreOf r "p1")) = some (1, some 10)
    ∧ (resultDb (submitAnswer exDb5 "r1" "p1" "q1" (.str "x") none 2)).isSome = true
    ∧ (((resultDb (submitAnswer exDb5 "r1" "p1" "q1" (.str "x") none 2)).bind
        fun d => recGet d.rooms "r1").map fun r =>
          (countBy (answersFor r "q1") "p1", scoreOf r "p1")) = some (2, some 20) :=
  ⟨rfl, rfl, rfl⟩

/-- Witness for C1: the amended duplicate-submission theorem applied to the
concrete session `exDb5`. -/
theorem submitAnswer_duplicate_appends_witness :
    ∃ room2 : Room,
      (resultDb (submitAnswer exDb5 "r1" "p1" "q1" (JSValue.str "x") none 2)).bind
        (fun d => recGet d.rooms "r1") = some room2
      ∧ countBy (answersFor room2 "q1") "p1" = countBy (answersFor exRoom5 "q1") "p1" + 1
      ∧ 2 ≤ countBy (answersFor room2 "q1") "p1"
      ∧ scoreOf room2 "p1" =
          some (10 + calculatePoints exQ (isAnswerCorrect exQ (JSValue.str "x")) none) :=
  submitAnswer_duplicate_appends exDb5 "r1" "p1" "q1" (JSValue.str "x") none 2
    exRoom5 exQuiz exQ 10 rfl rfl rfl (by decide) rfl

/-- Claim C2 counterexample: `exDb6` is reachable and its room r1 is
finished, yet `startQuiz` succeeds on it and moves the status back to
`running` — the lifecycle regresses. -/
theorem startQuiz_regresses_counterexample :
    Reachable exDb6
    ∧ (recGet exDb6.rooms "r1").map Room.status = some RoomStatus.finished
    ∧ (startQuiz exDb6 "r1").toOption.isSome = true
    ∧ (recGet (getOkDb (startQuiz exDb6 "r1")).rooms "r1").map Room.status =
        some RoomStatus.running :=
  ⟨exReach6, rfl, rfl, rfl⟩

/-- Witness for C2: `finishQuiz` on the running room of `exDb5` (giving
`exDb6`) does not lower the status rank. -/
theorem status_monotone_without_startQuiz_witness :
    statusRank exRoom5.status ≤ statusRank exRoom6.status :=
  status_monotone_without_startQuiz exDb5 exDb6 (Op.finishQuiz "r1") exReach5 rfl rfl
    "r1" exRoom5 exRoom6 rfl rfl

/-- Claim C3 counterexample: `startQuiz` on the finished room of `exDb6`
does not fail with any error — it succeeds and rewrites the status to
`running`; and `goToNextQuestion` on the lobby room of `exDb2` (status
`lobby`, not `running`) succeeds too. -/
theorem startQuiz_no_invalid_transition_counterexample :
    (recGet exDb6.rooms "r1").map Room.status = some RoomStatus.finished
    ∧ startQuiz exDb6 "r1" = .ok (getOkDb (startQuiz exDb6 "r1"))
    ∧ (recGet (getOkDb (startQuiz exDb6 "r1")).rooms "r1").map Room.status =
        some RoomStatus.running
    ∧ (recGet exDb2.rooms "r1").map Room.status = some RoomStatus.lobby
    ∧ goToNextQuestion exDb2 "r1" = .ok (getOkDb (goToNextQuestion exDb2 "r1")) :=
  ⟨rfl, rfl, rfl, rfl, rfl⟩

/-- Witness for C3: the unconditional-transition theorem applied to the
finished room of `exDb6`. -/
theorem startQuiz_advance_unconditional_witness :
    startQuiz exDb6 "r1" =
      .ok (withRooms exDb6 (setRoom exDb6.rooms "r1" (startedRoom exRoom6))) :=
  (startQuiz_advance_unconditional exDb6 "r1" exRoom6 exQuiz rfl rfl).1

/-- Witness for C6: in the reachable database `exDb5`, participant p1's
score (10) equals the sum of points over p1's recorded answers. -/
theorem participant_score_invariant_witness :
    exP1.score = answersSum exRoom5.answers exP1.id :=
  participant_score_invariant exReach5 "r1" exRoom5 rfl exP1 (by decide)

/-- Claim C7 counterexample: submitting with the unknown participant id
`ghost` on `exDb4` does not fail with any error: the answer is recorded
under `ghost` while the participant list stays `[p1]` with score 0. -/
theorem submitAnswer_ghost_counterexample :
    (resultDb (submitAnswer exDb4 "r1" "ghost" "q1" (.str "x") none 1)).isSome = true
    ∧ (((resultDb (submitAnswer exDb4 "r1" "ghost" "q1" (.str "x") none 1)).bind
        fun d => recGet d.rooms "r1").map fun r =>
          (countBy (answersFor r "q1") "ghost",
            r.participants.map Participant.id, scoreOf r "p1")) =
      some (1, ["p1"], some 0) :=
  ⟨rfl, rfl⟩

/-- Witness for C7: the unknown-participant theorem applied to `exDb4` and
the id `ghost`. -/
theorem submitAnswer_unknown_participant_witness :
    submitAnswer exDb4 "r1" "ghost" "q1" (JSValue.str "x") none 1 = .ok
      (withRooms exDb4 (setRoom exDb4.rooms "r1"
          (withAnswers ((recGet exDb4.rooms "r1").getD roomFallback)
            (pushAnswer ((recGet exDb4.rooms "r1").getD roomFallback).answers "q1"
              (submitMkAnswer "ghost" "q1" (JSValue.str "x") none 1 exQ)))),
        submitMkAnswer "ghost" "q1" (JSValue.str "x") none 1 exQ) :=
  submitAnswer_unknown_participant exDb4 "r1" "ghost" "q1" (JSValue.str "x") none 1
    ((recGet exDb4.rooms "r1").getD roomFallback) exQuiz exQ rfl rfl rfl (by decide)

/-- Witness for C9: subscribing to room r1 of `exDb2` delivers exactly the
one current snapshot. -/
theorem onRoomUpdate_catchup_witness :
    onRoomUpdateImmediate exDb2 "r1" = [⟨exRoom2, exQuiz⟩] :=
  (onRoomUpdate_catchup exDb2 "r1" exRoom2 exQuiz rfl rfl).1

/-- Witness for C10: room r1 of `exDb2` has the uppercase code `ABC234`;
looking it up by the lowercase variant `abc234` yields null. -/
theorem getRoomByCode_exact_witness :
    (getRoomByCode exDb2 "ABC234").isSome = true
    ∧ getRoomByCode exDb2 "abc234" = none :=
  ⟨rfl, (getRoomByCode_exact exDb2 "abc234" (by decide)).1⟩
